import Mathlib

/-!
# Verification of the basejump rebase bot against its specification

Shallow embedding of the basejump sources (src/index.ts, src/github.ts,
src/rebase.ts, src/errors.ts).  Each handler fragment is translated into a
pure Lean function that returns the ordered list of externally visible
effects it performs together with its result; asynchronous exceptions are
modelled with `Except`.  The outcomes of all external calls (GitHub API,
git subprocess, filesystem) are supplied up front by an `Env` record, so a
run of the handler is a total function of its environment.
-/

namespace Basejump

/-! ## String helpers: embeddings of the JavaScript string operations used
by the sources (`String.prototype.includes`, first-match `replace`, and the
two regular expressions of rebase.ts). -/

/-- If `l` begins with `pre`, drop that leading run and return the
remainder. -/
def dropPref : List Char → List Char → Option (List Char)
  | [], l => some l
  | _ :: _, [] => none
  | p :: ps, c :: cs => if p = c then dropPref ps cs else none

/-- Embedding of `hay.includes(needle)`: `needle` occurs as a contiguous
sublist of `hay`. -/
def listIncludes (needle : List Char) : List Char → Bool
  | [] => (dropPref needle []).isSome
  | c :: cs => (dropPref needle (c :: cs)).isSome || listIncludes needle cs

/-- String form of `listIncludes`: embeds `s.includes(pat)`. -/
def strIncludes (s pat : String) : Bool := listIncludes pat.toList s.toList

/-- Embedding of `s.startsWith(pre)`. -/
def strStartsWith (s pre : String) : Bool := (dropPref pre.toList s.toList).isSome

/-- The character class `[a-f0-9]` of the push-rejection regular
expression in rebase.ts. -/
def isHexDigit (c : Char) : Bool :=
  (decide (97 ≤ c.toNat) && decide (c.toNat ≤ 102)) ||
  (decide (48 ≤ c.toNat) && decide (c.toNat ≤ 57))

/-- Consume exactly `n` hex digits, returning the remainder. -/
def hexRun : Nat → List Char → Option (List Char)
  | 0, l => some l
  | _ + 1, [] => none
  | n + 1, c :: cs => if isHexDigit c then hexRun n cs else none

/-- Match of `is at [a-f0-9]\x7b40\x7d but expected [a-f0-9]\x7b40\x7d`
anchored at the head of the list. -/
def refMismatchAt (l : List Char) : Bool :=
  match dropPref "is at ".toList l with
  | none => false
  | some r1 =>
    match hexRun 40 r1 with
    | none => false
    | some r2 =>
      match dropPref " but expected ".toList r2 with
      | none => false
      | some r3 => (hexRun 40 r3).isSome

/-- Unanchored scan of the same pattern (a JS regex `test` searches every
start position). -/
def refMismatchScan : List Char → Bool
  | [] => refMismatchAt []
  | c :: cs => refMismatchAt (c :: cs) || refMismatchScan cs

/-- Embedding of
`new RegExp("is at [a-f0-9]\x7b40\x7d but expected [a-f0-9]\x7b40\x7d").test(msg)`
from rebase.ts. -/
def refMismatch (msg : String) : Bool := refMismatchScan msg.toList

/-- Anchored match of `^Current branch .* is up to date`: the wildcard may
consume any characters except a newline before the literal suffix. -/
def noNlThen (needle : List Char) : List Char → Bool
  | [] => (dropPref needle []).isSome
  | c :: cs => (dropPref needle (c :: cs)).isSome || (!(c == Char.ofNat 10) && noNlThen needle cs)

/-- Embedding of `message.match(/^Current branch .* is up to date/)` from
rebase.ts, as a Boolean. -/
def upToDateMatch (msg : String) : Bool :=
  match dropPref "Current branch ".toList msg.toList with
  | none => false
  | some r => noNlThen " is up to date".toList r

/-- Replace the first occurrence of `needle` by `repl`; embeds the
single-string form of `String.prototype.replace` used for the remote URI. -/
def replaceFirstL (needle repl : List Char) : List Char → List Char
  | [] => []
  | c :: cs =>
    match dropPref needle (c :: cs) with
    | some rest => repl ++ rest
    | none => c :: replaceFirstL needle repl cs

/-- String version of `replaceFirstL`. -/
def replaceFirst (s needle repl : String) : String :=
  String.mk (replaceFirstL needle.toList repl.toList s.toList)

/-- Index of the last `@` in a list of characters, if any. -/
def lastAtIdx : List Char → Option Nat
  | [] => none
  | c :: cs =>
    match lastAtIdx cs with
    | some j => some (j + 1)
    | none => if c = Char.ofNat 64 then some 0 else none

/-- Embedding of
`remoteUri.replace(/https:\/\/x-access-token:.*@/, "https://github.com/")`
from rebase.ts: at the first position where the literal
`https://x-access-token:` matches, the greedy wildcard runs to the last `@`
before a newline; if no `@` follows, the scan continues. -/
def obfuscateScan : List Char → List Char
  | [] => []
  | c :: cs =>
    match dropPref "https://x-access-token:".toList (c :: cs) with
    | some rest =>
      match lastAtIdx (rest.takeWhile (fun ch => !(ch == Char.ofNat 10))) with
      | some j => "https://github.com/".toList ++ rest.drop (j + 1)
      | none => c :: obfuscateScan cs
    | none => c :: obfuscateScan cs

/-- String version of `obfuscateScan`. -/
def obfuscateUri (uri : String) : String := String.mk (obfuscateScan uri.toList)

/-! ## Data model -/

/-- Verification record `commit.verification` of a listed pull-request
commit (github.ts). -/
structure CommitVerification where
  verified : Bool
  reason : String
deriving DecidableEq

/-- A commit as consumed by `areCommitsVerified` (github.ts): its SHA, its
verification record when present, and the JSON renderings of the author and
committer fields, which the source only ever feeds to `JSON.stringify` for a
log line. -/
structure Commit where
  sha : String
  authorJson : String
  committerJson : String
  verification : Option CommitVerification
deriving DecidableEq

/-- A thrown JavaScript value: either an `Error` instance, identified by its
message, or any other value, identified by its string coercion. -/
inductive JsVal
  | error (message : String)
  | nonError (repr : String)
deriving DecidableEq

/-- Failure of a GitHub API call: an Octokit request error
(`status` number plus `response.data`, here carried as its JSON rendering,
plus the `Error` message), or any other thrown value. -/
inductive ApiFail
  | http (status : Nat) (data : String) (message : String)
  | js (v : JsVal)
deriving DecidableEq

/-- The discriminated error taxonomy of errors.ts together with the generic
shapes distinguished by the orchestrator catch block in index.ts:
`CodeConflictError`, `RemoteChangedError`, Octokit HTTP errors, plain
`Error` instances, and thrown non-`Error` values. -/
inductive Err
  | codeConflict (message : String) (commitSha : String)
  | remoteChanged (message : String)
  | http (status : Nat) (data : String) (message : String)
  | jsError (message : String)
  | nonErrorValue (repr : String)
deriving DecidableEq

/-- Map an API failure to the error value seen by a catch block. -/
def errOfApiFail : ApiFail → Err
  | .http s d m => .http s d m
  | .js (.error m) => .jsError m
  | .js (.nonError r) => .nonErrorValue r

/-- Map a thrown git-client value to the error seen by a catch block. -/
def errOfJs : JsVal → Err
  | .error m => .jsError m
  | .nonError r => .nonErrorValue r

/-- `error instanceof Error ? error.message : error` for an API failure. -/
def apiFailMessage : ApiFail → String
  | .http _ _ m => m
  | .js (.error m) => m
  | .js (.nonError r) => r

/-- `${error}` string coercion of a caught error value. -/
def errToString : Err → String
  | .codeConflict m _ => "Error: " ++ m
  | .remoteChanged m => "Error: " ++ m
  | .http _ _ m => "Error: " ++ m
  | .jsError m => "Error: " ++ m
  | .nonErrorValue r => r

/-- Log levels of the probot logger facade. -/
inductive LogLevel
  | info | warn | error | debug
deriving DecidableEq

/-- The externally visible actions of one handler run, in order: log lines,
GitHub API calls, git subprocess invocations, and filesystem operations on
the temporary workspace. -/
inductive Effect
  | log (level : LogLevel) (message : String)
  | apiCreateReaction (commentId : Nat) (content : String)
  | apiDeleteReaction (commentId : Nat) (reactionId : Nat)
  | apiCreateComment (issueNumber : Nat) (body : String)
  | apiGetPull (number : Nat)
  | apiCompare (basehead : String)
  | apiAuth
  | apiListCommits (number : Nat)
  | fsMkdtemp (path : String)
  | fsRm (path : String)
  | gitInit (dir : String) (config : List String)
  | gitClone (remoteUri : String) (dir : String)
  | gitCheckout (branch : String)
  | gitRebase (args : List String)
  | gitRevparse (ref : String)
  | gitPush (remote : String) (branch : String) (options : List String)
deriving DecidableEq

/-- Response of `reactions.createForIssueComment`: HTTP status (200 means the
reaction already existed) and the reaction id from the response data. -/
structure ReactionData where
  status : Nat
  id : Nat
deriving DecidableEq

/-- Value produced by `ctx.octokit.auth`, typed `unknown` in the source:
either an object with a string `token` field, or anything else. -/
inductive AuthResult
  | tokenObj (token : String)
  | other (repr : String)
deriving DecidableEq

/-- The fields of `pulls.get` data used by the handler. -/
structure PullData where
  baseRef : String
  headRef : String
deriving DecidableEq

/-- The environment of one `issue_comment.created` delivery: the event
payload fields the handler reads, the process configuration, and the
outcome of every external call the run may perform.  Reaction creation is
keyed by the emoji content, matching the three call sites. -/
structure Env where
  commentBody : String
  commentId : Nat
  isPullRequest : Bool
  issueNumber : Nat
  owner : String
  repo : String
  cloneUrl : String
  committerName : String
  committerEmail : String
  keyId : Option String
  now : Nat
  tmpdir : String
  tmpSuffix : String
  elapsedMs : Nat
  createReaction : String → Except ApiFail ReactionData
  pullGet : Except ApiFail PullData
  compareResult : Except ApiFail Nat
  authResult : Except ApiFail AuthResult
  listCommits : Except ApiFail (List Commit)
  cloneResult : Except JsVal Unit
  checkoutResult : Except JsVal Unit
  rebaseResult : Except JsVal String
  rebaseHeadSha : String
  pushResult : Except JsVal Unit
  createCommentResult : Except ApiFail Unit

/-- The log-message prefixer installed by `loggerWithPrefix` (index.ts). -/
def logMsg (env : Env) (message : String) : String :=
  "[basejump/" ++ env.owner ++ "/" ++ env.repo ++ "/pr-" ++
    toString env.issueNumber ++ "] " ++ message

/-! ## Embedding of github.ts -/

/-- Warning logged by `createIssueCommentReaction` when the creation call
returns status 200, meaning the reaction already existed. -/
def alreadyReactedWarn (env : Env) (content : String) (status : Nat) : List Effect :=
  if status = 200 then
    [Effect.log .warn
      (logMsg env ("Already reacted with " ++ content ++ " emoji to issue comment"))]
  else []

/-- Embedding of `createIssueCommentReaction` (github.ts): calls the
reaction-creation endpoint, warns when the response status is 200 (reaction
already existed), and returns the response data. -/
def createIssueCommentReaction (env : Env) (commentId : Nat) (content : String) :
    List Effect × Except Err ReactionData :=
  match env.createReaction content with
  | .error f => ([Effect.apiCreateReaction commentId content], .error (errOfApiFail f))
  | .ok data =>
    ([Effect.apiCreateReaction commentId content] ++ alreadyReactedWarn env content data.status,
     .ok data)

/-- Test applied to each listed commit by `areCommitsVerified`:
`commit.verification?.verified && commit.verification?.reason === "valid"`. -/
def commitIsVerifiedValid (c : Commit) : Bool :=
  match c.verification with
  | some v => v.verified && (v.reason == "valid")
  | none => false

/-- Rendering of `JSON.stringify(\x7b sha, author, committer \x7d)` for the
per-commit log line of `areCommitsVerified`.  Commit SHAs are hexadecimal,
so no JSON escaping is needed for the `sha` field; the author and committer
fields are carried directly as their JSON renderings. -/
def jsonStringifyCommit (c : Commit) : String :=
  "\x7b\"sha\":\"" ++ c.sha ++ "\",\"author\":" ++ c.authorJson ++
    ",\"committer\":" ++ c.committerJson ++ "\x7d"

/-- Interpolation of `commit.verification?.reason` into a template string:
a missing record prints as `undefined`. -/
def verificationReason (c : Commit) : String :=
  match c.verification with
  | some v => v.reason
  | none => "undefined"

/-- Log lines emitted by the partition loop of `areCommitsVerified`: one
info line per commit, plus a warning for each unverified commit. -/
def processCommitsLog (env : Env) : List Commit → List Effect
  | [] => []
  | c :: cs =>
    [Effect.log .info (logMsg env ("Processing commit: " ++ jsonStringifyCommit c))] ++
    (if commitIsVerifiedValid c then []
     else [Effect.log .warn (logMsg env
       ("Commit " ++ c.sha ++ " is unverified with reason \"" ++ verificationReason c ++ "\""))]) ++
    processCommitsLog env cs

/-- Embedding of `areCommitsVerified` (github.ts): lists the pull request
commits, partitions them into verified and unverified with a log line each,
and returns whether the unverified partition is empty.  Any failure of the
listing call is caught inside the function, logged, and absorbed into a
`false` result. -/
def areCommitsVerified (env : Env) : List Effect × Except Err Bool :=
  let t := [Effect.apiListCommits env.issueNumber]
  match env.listCommits with
  | .error f =>
    (t ++ [Effect.log .error (logMsg env
       ("Error checking commits: " ++ apiFailMessage f ++
        ". Proceeding as if commits are unverified"))],
     .ok false)
  | .ok commits =>
    let unverifiedCommits := commits.filter (fun c => !commitIsVerifiedValid c)
    (t ++ processCommitsLog env commits, .ok (unverifiedCommits.length == 0))

/-- Embedding of `getInstallationToken` (github.ts): requests an
installation token and returns its `token` field when the result is an
object carrying a string token, `none` otherwise. -/
def getInstallationToken (env : Env) : List Effect × Except Err (Option String) :=
  let t := [Effect.apiAuth]
  match env.authResult with
  | .error f => (t, .error (errOfApiFail f))
  | .ok (.tokenObj token) => (t, .ok (some token))
  | .ok (.other _) => (t, .ok none)

/-! ## Embedding of rebase.ts -/

/-- Path of the temporary workspace created by
`mkdtemp(join(tmpdir(), "basejump-" + Date.now() + "-"))`: the OS temporary
directory, the fixed template naming a wall-clock timestamp, and the unique
suffix appended by `mkdtemp`. -/
def workspacePath (env : Env) : String :=
  env.tmpdir ++ "/basejump-" ++ toString env.now ++ "-" ++ env.tmpSuffix

/-- Embedding of `doRebase` (rebase.ts): run `git rebase baseBranch`; on a
status message saying the branch is already up to date return `false`,
otherwise `true`; if git fails with `CONFLICT` in its message, resolve
`REBASE_HEAD` and raise `CodeConflictError` carrying that SHA; re-raise any
other failure unchanged. -/
def doRebase (env : Env) (baseBranch : String) : List Effect × Except Err Bool :=
  let t := [Effect.gitRebase [baseBranch]]
  match env.rebaseResult with
  | .ok message =>
    if upToDateMatch message then (t, .ok false) else (t, .ok true)
  | .error (.error msg) =>
    if strIncludes msg "CONFLICT" then
      (t ++ [Effect.gitRevparse "REBASE_HEAD"],
       .error (.codeConflict msg env.rebaseHeadSha))
    else (t, .error (.jsError msg))
  | .error (.nonError r) => (t, .error (.nonErrorValue r))

/-- Embedding of `forcePushWithLease` (rebase.ts): push with
`--force-with-lease`; when the push fails with an `Error` whose message
contains the local stale-lease rejection or matches the remote ref-mismatch
pattern, raise `RemoteChangedError`; re-raise any other failure unchanged. -/
def forcePushWithLease (env : Env) (branch : String) : List Effect × Except Err Unit :=
  let t := [Effect.gitPush "origin" branch ["--force-with-lease"]]
  match env.pushResult with
  | .ok _ => (t, .ok ())
  | .error (.error msg) =>
    if strIncludes msg "[rejected] (stale info)" || refMismatch msg then
      (t, .error (.remoteChanged msg))
    else (t, .error (.jsError msg))
  | .error (.nonError r) => (t, .error (.nonErrorValue r))

/-- Body of the `try` block of `run` (rebase.ts): clone, checkout, rebase,
and push only when a rebase was actually performed. -/
def rebaseRunBody (env : Env) (remoteUri featBranch baseBranch workingDir : String) :
    List Effect × Except Err Unit :=
  let t := [Effect.log .debug (logMsg env ("Cloning " ++ obfuscateUri remoteUri)),
            Effect.gitClone remoteUri workingDir]
  match env.cloneResult with
  | .error v => (t, .error (errOfJs v))
  | .ok _ =>
    let t := t ++ [Effect.log .debug (logMsg env ("Checking out " ++ featBranch)),
                   Effect.gitCheckout featBranch]
    match env.checkoutResult with
    | .error v => (t, .error (errOfJs v))
    | .ok _ =>
      let t := t ++ [Effect.log .debug
        (logMsg env ("Rebasing " ++ featBranch ++ " onto " ++ baseBranch))]
      match doRebase env baseBranch with
      | (td, .error e) => (t ++ td, .error e)
      | (td, .ok wasRebased) =>
        if wasRebased then
          let t := t ++ td ++ [Effect.log .debug
            (logMsg env ("Pushing " ++ featBranch ++ " to origin"))]
          match forcePushWithLease env featBranch with
          | (tp, r) => (t ++ tp, r)
        else (t ++ td, .ok ())

/-- Embedding of the default export `run` (rebase.ts): create the temporary
workspace, set up a git client with the given configuration, run the
clone/checkout/rebase/push body, and remove the workspace in a `finally`
block on every exit path, preserving the body result. -/
def rebaseRun (env : Env) (remoteUri featBranch baseBranch : String)
    (gitConfig : List String) : List Effect × Except Err Unit :=
  let workingDir := workspacePath env
  let body := rebaseRunBody env remoteUri featBranch baseBranch workingDir
  ([Effect.fsMkdtemp workingDir, Effect.gitInit workingDir gitConfig] ++
     body.1 ++ [Effect.fsRm workingDir],
   body.2)

/-! ## Embedding of index.ts -/

/-- Fixed bot identity directives of the git configuration (index.ts lines
127-132). -/
def gitIdentityConfig (env : Env) : List String :=
  ["user.name=" ++ env.committerName,
   "user.email=" ++ env.committerEmail,
   "committer.name=" ++ env.committerName,
   "committer.email=" ++ env.committerEmail]

/-- Git configuration directives assembled by the handler (index.ts lines
127-140): the fixed bot identity, then either signing enabled with the
signing key (when every commit is verified and the `KEY_ID` environment
variable is set to a truthy, i.e. non-empty, value) or signing disabled. -/
def buildGitConfig (env : Env) (shouldSignDuringRebase : Bool) : List String :=
  let gitConfig := gitIdentityConfig env
  match shouldSignDuringRebase, env.keyId with
  | true, some keyId =>
    if keyId = "" then gitConfig ++ ["commit.gpgsign=false"]
    else gitConfig ++ ["commit.gpgsign=true", "user.signingkey=" ++ keyId]
  | _, _ => gitConfig ++ ["commit.gpgsign=false"]

/-- Body of the pull-request comment posted on a code conflict:
`messageParts.join("\n\n")` (index.ts lines 151-158). -/
def conflictCommentBody (sha : String) : String :=
  "Failed to rebase: Conflict detected when applying commit " ++
    sha.take 7 ++ "." ++ "\n\n" ++ "Please resolve the conflict and push again."

/-- Embedding of the `catch` block of the handler (index.ts lines 147-176):
a `CodeConflictError` posts an explanatory pull-request comment and logs it;
a `RemoteChangedError` logs a fixed message; an HTTP error logs the response
data; anything else logs its string coercion; in every case a `confused`
reaction is then posted. -/
def onRebaseError (env : Env) (e : Err) : List Effect × Except Err Unit :=
  let branch : List Effect × Except Err Unit :=
    match e with
    | .codeConflict _ sha =>
      let t := [Effect.apiCreateComment env.issueNumber (conflictCommentBody sha)]
      match env.createCommentResult with
      | .error f => (t, .error (errOfApiFail f))
      | .ok _ =>
        (t ++ [Effect.log .error (logMsg env
          ("Failed to rebase: Conflict detected when applying commit " ++
           sha.take 7 ++ "." ++ " " ++ "Please resolve the conflict and push again."))],
         .ok ())
    | .remoteChanged _ =>
      ([Effect.log .error (logMsg env
         "Failed to rebase: branch changes detected since rebase was triggered")],
       .ok ())
    | .http _ data _ =>
      ([Effect.log .error (logMsg env ("Failed to rebase: " ++ data))], .ok ())
    | e =>
      ([Effect.log .error (logMsg env ("Failed to rebase: " ++ errToString e))], .ok ())
  match branch with
  | (t, .error f) => (t, .error f)
  | (t, .ok _) =>
    match createIssueCommentReaction env env.commentId "confused" with
    | (tc, .error f) => (t ++ tc, .error f)
    | (tc, .ok _) => (t ++ tc, .ok ())

/-- Log line announcing the computed signing policy (index.ts lines
109-117). -/
def signPolicyLog (env : Env) (shouldSignDuringRebase : Bool) : Effect :=
  if shouldSignDuringRebase then
    Effect.log .info (logMsg env
      "All commits are verified. Proceeding with rebase with signed commits")
  else
    Effect.log .warn (logMsg env
      "Not all commits are verified. Proceeding with rebase without signing commits")

/-- Tail of the `try` block of the handler (index.ts lines 142-146): run
the local rebase and post the `rocket` success reaction. -/
def rebaseAndNotify (env : Env) (remoteUri featBranch baseBranch : String)
    (gitConfig : List String) : List Effect × Except Err Unit :=
  match rebaseRun env remoteUri featBranch baseBranch gitConfig with
  | (tr, .error f) => (tr, .error f)
  | (tr, .ok _) =>
    match createIssueCommentReaction env env.commentId "rocket" with
    | (tk, .error f) => (tr ++ tk, .error f)
    | (tk, .ok _) => (tr ++ tk, .ok ())

/-- Embedding of the `try` block of the handler (index.ts lines 64-146):
post the `eyes` reaction and retain its id, fetch the pull request, compare
head against base and exit early with a `confused` reaction when the head is
not behind, fetch the installation token, compute the signing policy, run
the local rebase, and post a `rocket` reaction on success.  The second
component is the value of the mutable `eyesReactionId` binding when the
block exits. -/
def mainFlow (env : Env) : List Effect × Option Nat × Except Err Unit :=
  match createIssueCommentReaction env env.commentId "eyes" with
  | (t, .error f) => (t, none, .error f)
  | (t, .ok data) =>
    let eyesReactionId := some data.id
    let t := t ++ [Effect.log .info (logMsg env "Checking rebase necessity"),
                   Effect.apiGetPull env.issueNumber]
    match env.pullGet with
    | .error f => (t, eyesReactionId, .error (errOfApiFail f))
    | .ok pr =>
      let t := t ++ [Effect.apiCompare (pr.baseRef ++ "..." ++ pr.headRef)]
      match env.compareResult with
      | .error f => (t, eyesReactionId, .error (errOfApiFail f))
      | .ok behindBy =>
        if behindBy = 0 then
          let t := t ++ [Effect.log .warn (logMsg env
            "PR is already up to date with base branch, exiting")]
          match createIssueCommentReaction env env.commentId "confused" with
          | (tc, .error f) => (t ++ tc, eyesReactionId, .error f)
          | (tc, .ok _) => (t ++ tc, eyesReactionId, .ok ())
        else
          let t := t ++ [Effect.log .info (logMsg env "Proceeding with rebase")]
          match getInstallationToken env with
          | (ta, .error f) => (t ++ ta, eyesReactionId, .error f)
          | (ta, .ok none) =>
            let t := t ++ ta ++ [Effect.log .error (logMsg env
              "Failed to retrieve auth token, aborting rebase")]
            match createIssueCommentReaction env env.commentId "confused" with
            | (tc, .error f) => (t ++ tc, eyesReactionId, .error f)
            | (tc, .ok _) => (t ++ tc, eyesReactionId, .ok ())
          | (ta, .ok (some authToken)) =>
            let t := t ++ ta
            match areCommitsVerified env with
            | (tv, .error f) => (t ++ tv, eyesReactionId, .error f)
            | (tv, .ok shouldSignDuringRebase) =>
              let t := t ++ tv ++ [signPolicyLog env shouldSignDuringRebase]
              let remoteUri := replaceFirst env.cloneUrl "https://"
                ("https://x-access-token:" ++ authToken ++ "@")
              let featBranch := pr.headRef
              let baseBranch := pr.baseRef
              let gitConfig := buildGitConfig env shouldSignDuringRebase
              let res := rebaseAndNotify env remoteUri featBranch baseBranch gitConfig
              (t ++ res.1, eyesReactionId, res.2)

/-- Embedding of the whole `issue_comment.created` handler (index.ts): the
guard on the comment body and pull-request flag, the `try` block, the
`catch` block, and the `finally` block that deletes the `eyes` reaction when
one was created and logs the elapsed time.  The reaction deletion and the
log calls are modelled as always resolving; no claim depends on their
failure. -/
def handlerRun (env : Env) : List Effect × Except Err Unit :=
  if !(strStartsWith env.commentBody "/rebase") || !env.isPullRequest then
    ([], .ok ())
  else
    let t0 := [Effect.log .info (logMsg env "Received rebase request")]
    match mainFlow env with
    | (t, eyesReactionId, r) =>
      let caught : List Effect × Except Err Unit :=
        match r with
        | .ok _ => ([], .ok ())
        | .error e => onRebaseError env e
      let tf :=
        (match eyesReactionId with
         | some id => [Effect.apiDeleteReaction env.commentId id]
         | none => []) ++
        [Effect.log .info (logMsg env ("Completed in " ++ toString env.elapsedMs ++ "ms"))]
      (t0 ++ t ++ caught.1 ++ tf, caught.2)

/-- Ordered list of externally visible effects of one handler run. -/
def handlerTrace (env : Env) : List Effect := (handlerRun env).1

/-! ## Trace projections -/

/-- Contents of the reaction-creation calls of a trace, in order. -/
@[simp] def reactionCreates : List Effect → List String
  | [] => []
  | .apiCreateReaction _ c :: t => c :: reactionCreates t
  | _ :: t => reactionCreates t

/-- Bodies of the pull-request comments posted by a trace, in order. -/
@[simp] def commentPosts : List Effect → List String
  | [] => []
  | .apiCreateComment _ b :: t => b :: commentPosts t
  | _ :: t => commentPosts t

/-- Configuration directive lists of the git-client initializations of a
trace, in order. -/
@[simp] def gitInitConfigs : List Effect → List (List String)
  | [] => []
  | .gitInit _ cfg :: t => cfg :: gitInitConfigs t
  | _ :: t => gitInitConfigs t

/-- Effects that touch a working tree: workspace filesystem operations and
git subprocess invocations. -/
@[simp] def touchesWorkTree : Effect → Bool
  | .fsMkdtemp _ => true
  | .fsRm _ => true
  | .gitInit _ _ => true
  | .gitClone _ _ => true
  | .gitCheckout _ => true
  | .gitRebase _ => true
  | .gitRevparse _ => true
  | .gitPush _ _ _ => true
  | _ => false

/-- Signing policy actually computed by `areCommitsVerified` as a function
of the listing outcome: all listed commits verified with reason `valid`
(vacuously true for an empty list), and `false` on a listing failure. -/
def verifiedPolicy (env : Env) : Bool :=
  match env.listCommits with
  | .ok commits => (commits.filter (fun c => !commitIsVerifiedValid c)).length == 0
  | .error _ => false

/-! ## Claim-side predicates, written from the words of the specification -/

/-- Signing policy as the specification words it: the set of verification
records is non-empty and every record is verified with reason `valid`.
Stated from the spec text for comparison with `areCommitsVerified`. -/
def claimSigningPolicy (records : List Commit) : Bool :=
  (!records.isEmpty) &&
    records.all (fun c =>
      match c.verification with
      | some v => v.verified && (v.reason == "valid")
      | none => false)

/-- Substring occurrence as a proposition: `pat` occurs contiguously in
`s`. -/
def ContainsSub (s pat : String) : Prop :=
  ∃ pre post, s.toList = pre ++ pat.toList ++ post

/-- The remote ref-mismatch pattern as the specification words it: the
message contains `is at`, a 40-character hex SHA, `but expected`, and a
second 40-character hex SHA. -/
def RefMismatchSpec (s : String) : Prop :=
  ∃ pre h1 h2 post,
    s.toList = pre ++ "is at ".toList ++ h1 ++ " but expected ".toList ++ h2 ++ post ∧
    h1.length = 40 ∧ h2.length = 40 ∧
    (∀ c ∈ h1, isHexDigit c = true) ∧ (∀ c ∈ h2, isHexDigit c = true)

/-! ## Model of the external native rebase primitive (needed for conflict
attribution) -/

/-- Modelled from the spec: one commit replayed by the underlying native
rebase primitive, which is external to this repository (spec sections 4.4
and 6) — its SHA and whether applying it onto the new base conflicts. -/
structure ReplayCommit where
  sha : String
  conflicts : Bool
deriving DecidableEq

/-- Modelled from the spec: the native rebase replays commits in order and
stops at the first commit whose application conflicts. -/
def firstConflicting : List ReplayCommit → Option ReplayCommit
  | [] => none
  | c :: cs => if c.conflicts then some c else firstConflicting cs

/-- Modelled from the spec: diagnostic text of a conflicting native rebase,
which carries the conflict indicator `CONFLICT`. -/
def conflictDiagnostic : String := "CONFLICT (content): Merge conflict"

/-- Modelled from the spec: outcome of the native rebase over a commit
list — success with a status message when no commit conflicts, and a
failure carrying the conflict indicator otherwise. -/
def simRebaseResult (cs : List ReplayCommit) (okMessage : String) : Except JsVal String :=
  match firstConflicting cs with
  | none => .ok okMessage
  | some _ => .error (.error conflictDiagnostic)

/-- Modelled from the spec: during a conflicted rebase, the
rebase-in-progress head reference `REBASE_HEAD` resolves to the commit
currently being applied, i.e. the first conflicting one. -/
def simRebaseHead (cs : List ReplayCommit) : String :=
  match firstConflicting cs with
  | none => ""
  | some c => c.sha

/-! ## Concrete environments used as witnesses and counterexamples -/

/-- Baseline environment: a `/rebase` comment on a pull request two commits
behind base, one verified commit, and every external call succeeding. -/
def envHappy : Env where
  commentBody := "/rebase"
  commentId := 10
  isPullRequest := true
  issueNumber := 7
  owner := "acme"
  repo := "widgets"
  cloneUrl := "https://github.com/acme/widgets.git"
  committerName := "bot"
  committerEmail := "bot@acme.example"
  keyId := some "ABCD1234"
  now := 1000
  tmpdir := "/tmp"
  tmpSuffix := "abc123"
  elapsedMs := 42
  createReaction := fun c => if c = "eyes" then .ok ⟨201, 5⟩ else .ok ⟨201, 6⟩
  pullGet := .ok ⟨"main", "feat"⟩
  compareResult := .ok 2
  authResult := .ok (.tokenObj "tok")
  listCommits := .ok [⟨"aaaa111", "null", "null", some ⟨true, "valid"⟩⟩]
  cloneResult := .ok ()
  checkoutResult := .ok ()
  rebaseResult := .ok "Rebasing (1/1)"
  rebaseHeadSha := "deadbeefdeadbeefdeadbeefdeadbeefdeadbeef"
  pushResult := .ok ()
  createCommentResult := .ok ()

/-- Baseline environment with a conflicting rebase. -/
def envConflict : Env :=
  { envHappy with rebaseResult := .error (.error "CONFLICT (content): Merge conflict in file.txt") }

/-- Baseline environment with the head branch not behind base. -/
def envNoOp : Env := { envHappy with compareResult := .ok 0 }

/-- Baseline environment on an issue that is not a pull request. -/
def envNotPr : Env := { envHappy with isPullRequest := false }

/-- Baseline environment where the pull request lists no commits. -/
def envEmptyCommits : Env := { envHappy with listCommits := .ok [] }

/-- Baseline environment where the force push is rejected by the local
stale-lease check. -/
def envRemoteChanged : Env :=
  { envHappy with pushResult := .error (.error "To github.com:acme/widgets.git ! [rejected] (stale info) feat -> feat") }

/-- First of two distinct concurrent requests sharing a timestamp and an
mkdtemp draw. -/
def envIdentA : Env := { envHappy with owner := "alice", repo := "alpha", issueNumber := 1 }

/-- Second of two distinct concurrent requests sharing a timestamp and an
mkdtemp draw. -/
def envIdentB : Env := { envHappy with owner := "bob", repo := "beta", issueNumber := 2 }

/-! ## Helper lemmas about the string scanners -/

theorem dropPref_eq_some {p l r : List Char} :
    dropPref p l = some r ↔ l = p ++ r := by
  induction p generalizing l with
  | nil => simp [dropPref]
  | cons p ps ih =>
    cases l with
    | nil => simp [dropPref]
    | cons c cs =>
      by_cases h : p = c
      · subst h
        simp [dropPref, ih]
      · simp [dropPref, h, Ne.symm h]

theorem dropPref_isSome {p l : List Char} :
    (dropPref p l).isSome = true ↔ ∃ r, l = p ++ r := by
  rw [Option.isSome_iff_exists]
  constructor
  · rintro ⟨r, hr⟩
    exact ⟨r, dropPref_eq_some.mp hr⟩
  · rintro ⟨r, hr⟩
    exact ⟨r, dropPref_eq_some.mpr hr⟩

theorem listIncludes_iff {n l : List Char} :
    listIncludes n l = true ↔ ∃ pre post, l = pre ++ n ++ post := by
  induction l with
  | nil =>
    simp only [listIncludes, dropPref_isSome]
    constructor
    · rintro ⟨r, hr⟩
      exact ⟨[], r, by simpa using hr⟩
    · rintro ⟨pre, post, h⟩
      have h3 : pre = [] ∧ n = [] ∧ post = [] := by simpa using h.symm
      exact ⟨post, by simp [h3.2.1, h3.2.2]⟩
  | cons c cs ih =>
    simp only [listIncludes, Bool.or_eq_true, dropPref_isSome, ih]
    constructor
    · rintro (⟨r, hr⟩ | ⟨pre, post, h⟩)
      · exact ⟨[], r, by simpa using hr⟩
      · exact ⟨c :: pre, post, by simp [h]⟩
    · rintro ⟨pre, post, h⟩
      cases pre with
      | nil => exact Or.inl ⟨post, by simpa using h⟩
      | cons x xs =>
        right
        rcases List.cons_eq_cons.mp (by simpa using h) with ⟨hx, hrest⟩
        exact ⟨xs, post, by simp [hrest]⟩

theorem strIncludes_iff {s pat : String} :
    strIncludes s pat = true ↔ ContainsSub s pat := by
  simp [strIncludes, ContainsSub, listIncludes_iff]

theorem hexRun_eq_some {n : Nat} {l r : List Char} :
    hexRun n l = some r ↔
      ∃ h, l = h ++ r ∧ h.length = n ∧ ∀ c ∈ h, isHexDigit c = true := by
  induction n generalizing l with
  | zero =>
    simp only [hexRun, Option.some_inj]
    constructor
    · rintro rfl
      exact ⟨[], by simp⟩
    · rintro ⟨h, hl, hlen, _⟩
      rw [List.length_eq_zero] at hlen
      simp [hlen] at hl
      exact hl
  | succ m ih =>
    cases l with
    | nil =>
      simp only [hexRun]
      constructor
      · intro h
        exact absurd h (by simp)
      · rintro ⟨h, hl, hlen, _⟩
        cases h with
        | nil => simp at hlen
        | cons a as => simp at hl
    | cons c cs =>
      simp only [hexRun]
      by_cases hc : isHexDigit c = true
      · rw [if_pos hc, ih]
        constructor
        · rintro ⟨h, hl, hlen, hhex⟩
          refine ⟨c :: h, by simp [hl], by simp [hlen], ?_⟩
          intro x hx
          rcases List.mem_cons.mp hx with rfl | hx
          · exact hc
          · exact hhex x hx
        · rintro ⟨h, hl, hlen, hhex⟩
          cases h with
          | nil => simp at hlen
          | cons a as =>
            rcases List.cons_eq_cons.mp hl with ⟨rfl, hrest⟩
            exact ⟨as, hrest, by simpa using hlen, fun x hx => hhex x (List.mem_cons_of_mem _ hx)⟩
      · rw [if_neg hc]
        constructor
        · intro h
          exact absurd h (by simp)
        · rintro ⟨h, hl, hlen, hhex⟩
          cases h with
          | nil => simp at hlen
          | cons a as =>
            have ha : isHexDigit c = true := by
              rw [(List.cons_eq_cons.mp hl).1]
              exact hhex a (List.mem_cons_self a as)
            exact absurd ha hc

theorem hexRun_isSome {n : Nat} {l : List Char} :
    (hexRun n l).isSome = true ↔
      ∃ h r, l = h ++ r ∧ h.length = n ∧ ∀ c ∈ h, isHexDigit c = true := by
  rw [Option.isSome_iff_exists]
  constructor
  · rintro ⟨r, hr⟩
    rcases hexRun_eq_some.mp hr with ⟨h, hl, hlen, hhex⟩
    exact ⟨h, r, hl, hlen, hhex⟩
  · rintro ⟨h, r, hl, hlen, hhex⟩
    exact ⟨r, hexRun_eq_some.mpr ⟨h, hl, hlen, hhex⟩⟩

theorem refMismatchAt_iff {l : List Char} :
    refMismatchAt l = true ↔
      ∃ h1 h2 post,
        l = "is at ".toList ++ h1 ++ " but expected ".toList ++ h2 ++ post ∧
        h1.length = 40 ∧ h2.length = 40 ∧
        (∀ c ∈ h1, isHexDigit c = true) ∧ (∀ c ∈ h2, isHexDigit c = true) := by
  unfold refMismatchAt
  constructor
  · intro h
    split at h
    · simp at h
    next r1 hd1 =>
      split at h
      · simp at h
      next r2 hh1 =>
        split at h
        · simp at h
        next r3 hd2 =>
          rcases hexRun_isSome.mp h with ⟨h2, post, hr3, hlen2, hhex2⟩
          rcases hexRun_eq_some.mp hh1 with ⟨h1, hr1, hlen1, hhex1⟩
          refine ⟨h1, h2, post, ?_, hlen1, hlen2, hhex1, hhex2⟩
          rw [dropPref_eq_some.mp hd1, hr1, dropPref_eq_some.mp hd2, hr3]
          simp
  · rintro ⟨h1, h2, post, rfl, hlen1, hlen2, hhex1, hhex2⟩
    have e1 : dropPref "is at ".toList
        ("is at ".toList ++ h1 ++ " but expected ".toList ++ h2 ++ post) =
        some (h1 ++ (" but expected ".toList ++ (h2 ++ post))) :=
      dropPref_eq_some.mpr (by simp)
    have e2 : hexRun 40 (h1 ++ (" but expected ".toList ++ (h2 ++ post))) =
        some (" but expected ".toList ++ (h2 ++ post)) :=
      hexRun_eq_some.mpr ⟨h1, rfl, hlen1, hhex1⟩
    have e3 : dropPref " but expected ".toList (" but expected ".toList ++ (h2 ++ post)) =
        some (h2 ++ post) := dropPref_eq_some.mpr rfl
    have e4 : (hexRun 40 (h2 ++ post)).isSome = true :=
      hexRun_isSome.mpr ⟨h2, post, rfl, hlen2, hhex2⟩
    simp only [e1, e2, e3, e4]

theorem refMismatchScan_iff {l : List Char} :
    refMismatchScan l = true ↔
      ∃ pre h1 h2 post,
        l = pre ++ "is at ".toList ++ h1 ++ " but expected ".toList ++ h2 ++ post ∧
        h1.length = 40 ∧ h2.length = 40 ∧
        (∀ c ∈ h1, isHexDigit c = true) ∧ (∀ c ∈ h2, isHexDigit c = true) := by
  induction l with
  | nil =>
    constructor
    · intro h
      exact absurd h (by decide)
    · rintro ⟨pre, h1, h2, post, h, rest⟩
      rcases List.append_eq_nil.mp h.symm with ⟨h5, -⟩
      rcases List.append_eq_nil.mp h5 with ⟨h4, -⟩
      rcases List.append_eq_nil.mp h4 with ⟨-, hp2⟩
      exact absurd hp2 (by decide)
  | cons c cs ih =>
    simp only [refMismatchScan, Bool.or_eq_true, refMismatchAt_iff, ih]
    constructor
    · rintro (⟨h1, h2, post, h, rest⟩ | ⟨pre, h1, h2, post, h, rest⟩)
      · exact ⟨[], h1, h2, post, by simpa using h, rest⟩
      · exact ⟨c :: pre, h1, h2, post, by simp [h], rest⟩
    · rintro ⟨pre, h1, h2, post, h, rest⟩
      cases pre with
      | nil => exact Or.inl ⟨h1, h2, post, by simpa using h, rest⟩
      | cons x xs =>
        right
        rcases List.cons_eq_cons.mp (by simpa using h) with ⟨rfl, hrest⟩
        exact ⟨xs, h1, h2, post, by simpa using hrest, rest⟩

theorem refMismatch_iff {s : String} :
    refMismatch s = true ↔ RefMismatchSpec s := by
  simp [refMismatch, RefMismatchSpec, refMismatchScan_iff]

/-! ## Plumbing lemmas for trace projections -/

@[simp] theorem reactionCreates_append (a b : List Effect) :
    reactionCreates (a ++ b) = reactionCreates a ++ reactionCreates b := by
  induction a with
  | nil => rfl
  | cons x t ih => cases x <;> simp [ih]

@[simp] theorem commentPosts_append (a b : List Effect) :
    commentPosts (a ++ b) = commentPosts a ++ commentPosts b := by
  induction a with
  | nil => rfl
  | cons x t ih => cases x <;> simp [ih]

@[simp] theorem gitInitConfigs_append (a b : List Effect) :
    gitInitConfigs (a ++ b) = gitInitConfigs a ++ gitInitConfigs b := by
  induction a with
  | nil => rfl
  | cons x t ih => cases x <;> simp [ih]

@[simp] theorem reactionCreates_alreadyReactedWarn (env : Env) (c : String) (s : Nat) :
    reactionCreates (alreadyReactedWarn env c s) = [] := by
  by_cases h : s = 200 <;> simp [alreadyReactedWarn, h]

@[simp] theorem commentPosts_alreadyReactedWarn (env : Env) (c : String) (s : Nat) :
    commentPosts (alreadyReactedWarn env c s) = [] := by
  by_cases h : s = 200 <;> simp [alreadyReactedWarn, h]

@[simp] theorem gitInitConfigs_alreadyReactedWarn (env : Env) (c : String) (s : Nat) :
    gitInitConfigs (alreadyReactedWarn env c s) = [] := by
  by_cases h : s = 200 <;> simp [alreadyReactedWarn, h]

@[simp] theorem fsMkdtemp_mem_alreadyReactedWarn (p : String) (env : Env) (c : String) (s : Nat) :
    (Effect.fsMkdtemp p ∈ alreadyReactedWarn env c s) = False := by
  by_cases h : s = 200 <;> simp [alreadyReactedWarn, h]

@[simp] theorem reactionCreates_cons_signPolicyLog (env : Env) (b : Bool) (t : List Effect) :
    reactionCreates (signPolicyLog env b :: t) = reactionCreates t := by
  cases b <;> simp [signPolicyLog]

@[simp] theorem commentPosts_cons_signPolicyLog (env : Env) (b : Bool) (t : List Effect) :
    commentPosts (signPolicyLog env b :: t) = commentPosts t := by
  cases b <;> simp [signPolicyLog]

@[simp] theorem gitInitConfigs_cons_signPolicyLog (env : Env) (b : Bool) (t : List Effect) :
    gitInitConfigs (signPolicyLog env b :: t) = gitInitConfigs t := by
  cases b <;> simp [signPolicyLog]

@[simp] theorem fsMkdtemp_eq_signPolicyLog (p : String) (env : Env) (b : Bool) :
    (Effect.fsMkdtemp p = signPolicyLog env b) = False := by
  cases b <;> simp [signPolicyLog]

@[simp] theorem reactionCreates_processCommitsLog (env : Env) (cs : List Commit) :
    reactionCreates (processCommitsLog env cs) = [] := by
  induction cs with
  | nil => rfl
  | cons c t ih =>
    by_cases h : commitIsVerifiedValid c = true <;>
      simp [processCommitsLog, h, ih]

@[simp] theorem commentPosts_processCommitsLog (env : Env) (cs : List Commit) :
    commentPosts (processCommitsLog env cs) = [] := by
  induction cs with
  | nil => rfl
  | cons c t ih =>
    by_cases h : commitIsVerifiedValid c = true <;>
      simp [processCommitsLog, h, ih]

@[simp] theorem gitInitConfigs_processCommitsLog (env : Env) (cs : List Commit) :
    gitInitConfigs (processCommitsLog env cs) = [] := by
  induction cs with
  | nil => rfl
  | cons c t ih =>
    by_cases h : commitIsVerifiedValid c = true <;>
      simp [processCommitsLog, h, ih]

@[simp] theorem fsMkdtemp_mem_processCommitsLog (p : String) (env : Env) (cs : List Commit) :
    (Effect.fsMkdtemp p ∈ processCommitsLog env cs) = False := by
  induction cs with
  | nil => simp [processCommitsLog]
  | cons c t ih =>
    by_cases h : commitIsVerifiedValid c = true <;>
      simp [processCommitsLog, h, ih]

@[simp] theorem errOfApiFail_ne_codeConflict (f : ApiFail) (m sh : String) :
    (errOfApiFail f = Err.codeConflict m sh) = False := by
  rcases f with ⟨s, d, msg⟩ | v
  · simp [errOfApiFail]
  · rcases v with msg | r <;> simp [errOfApiFail]

@[simp] theorem errOfJs_ne_codeConflict (v : JsVal) (m sh : String) :
    (errOfJs v = Err.codeConflict m sh) = False := by
  rcases v with msg | r <;> simp [errOfJs]

/-! ## Shape of the rebase executor run -/

/-- Structural facts about one executor run, for any outcome: it posts no
comments and no reactions, sets up git exactly once with the given
configuration, creates temporary directories only at the workspace path,
always removes the workspace, and raises `CodeConflict` only for a rebase
failure whose message carries the conflict indicator, with the SHA taken
from `REBASE_HEAD`. -/
theorem rebaseRun_shape (env : Env) (remoteUri featBranch baseBranch : String)
    (cfg : List String) :
    commentPosts (rebaseRun env remoteUri featBranch baseBranch cfg).1 = [] ∧
    reactionCreates (rebaseRun env remoteUri featBranch baseBranch cfg).1 = [] ∧
    gitInitConfigs (rebaseRun env remoteUri featBranch baseBranch cfg).1 = [cfg] ∧
    (∀ p, Effect.fsMkdtemp p ∈ (rebaseRun env remoteUri featBranch baseBranch cfg).1 →
      p = workspacePath env) ∧
    Effect.fsMkdtemp (workspacePath env) ∈ (rebaseRun env remoteUri featBranch baseBranch cfg).1 ∧
    Effect.fsRm (workspacePath env) ∈ (rebaseRun env remoteUri featBranch baseBranch cfg).1 ∧
    (∀ m sh, (rebaseRun env remoteUri featBranch baseBranch cfg).2 =
        Except.error (Err.codeConflict m sh) →
      env.rebaseResult = Except.error (JsVal.error m) ∧ strIncludes m "CONFLICT" = true ∧
      sh = env.rebaseHeadSha) := by
  unfold rebaseRun rebaseRunBody doRebase forcePushWithLease
  rcases hcl : env.cloneResult with v | u
  · rcases v with m | r <;> simp [hcl]
  · rcases hco : env.checkoutResult with v | u2
    · rcases v with m | r <;> simp [hcl, hco]
    · rcases hr : env.rebaseResult with v | msg
      · rcases v with m | r
        · by_cases hconf : strIncludes m "CONFLICT" = true
          · simp [hcl, hco, hr, hconf]
          · simp [hcl, hco, hr, hconf]
        · simp [hcl, hco, hr]
      · by_cases hup : upToDateMatch msg = true
        · simp [hcl, hco, hr, hup]
        · rcases hp : env.pushResult with v | u3
          · rcases v with m | r
            · by_cases hpat :
                (strIncludes m "[rejected] (stale info)" || refMismatch m) = true
              · simp [hcl, hco, hr, hup, hp, hpat]
              · simp [hcl, hco, hr, hup, hp, hpat]
            · simp [hcl, hco, hr, hup, hp]
          · simp [hcl, hco, hr, hup, hp]

/-! ## Shape of the rebase-and-notify tail -/

@[simp] theorem commentPosts_rebaseAndNotify (env : Env) (r f b : String) (cfg : List String) :
    commentPosts (rebaseAndNotify env r f b cfg).1 = [] := by
  obtain ⟨S1, S2, S3, S4, S5, S6, S7⟩ := rebaseRun_shape env r f b cfg
  unfold rebaseAndNotify
  rcases hrb : rebaseRun env r f b cfg with ⟨tr, rr⟩
  rw [hrb] at S1
  rcases rr with fE | u
  · simpa using S1
  · rcases h9 : env.createReaction "rocket" with f9 | d9 <;>
      simp [createIssueCommentReaction, h9, S1]

@[simp] theorem gitInitConfigs_rebaseAndNotify (env : Env) (r f b : String) (cfg : List String) :
    gitInitConfigs (rebaseAndNotify env r f b cfg).1 = [cfg] := by
  obtain ⟨S1, S2, S3, S4, S5, S6, S7⟩ := rebaseRun_shape env r f b cfg
  unfold rebaseAndNotify
  rcases hrb : rebaseRun env r f b cfg with ⟨tr, rr⟩
  rw [hrb] at S3
  rcases rr with fE | u
  · simpa using S3
  · rcases h9 : env.createReaction "rocket" with f9 | d9 <;>
      simp [createIssueCommentReaction, h9, S3]

@[simp] theorem fsMkdtemp_mem_rebaseAndNotify (p : String) (env : Env) (r f b : String)
    (cfg : List String) :
    (Effect.fsMkdtemp p ∈ (rebaseAndNotify env r f b cfg).1) = (p = workspacePath env) := by
  obtain ⟨S1, S2, S3, S4, S5, S6, S7⟩ := rebaseRun_shape env r f b cfg
  unfold rebaseAndNotify
  rcases hrb : rebaseRun env r f b cfg with ⟨tr, rr⟩
  rw [hrb] at S4 S5
  have hiff : (Effect.fsMkdtemp p ∈ tr) ↔ (p = workspacePath env) :=
    ⟨fun h => S4 p h, fun h => h ▸ S5⟩
  rcases rr with fE | u
  · simpa using propext hiff
  · rcases h9 : env.createReaction "rocket" with f9 | d9 <;>
      simp [createIssueCommentReaction, h9, hiff]

@[simp] theorem fsRm_mem_rebaseAndNotify (env : Env) (r f b : String) (cfg : List String) :
    (Effect.fsRm (workspacePath env) ∈ (rebaseAndNotify env r f b cfg).1) = True := by
  obtain ⟨S1, S2, S3, S4, S5, S6, S7⟩ := rebaseRun_shape env r f b cfg
  unfold rebaseAndNotify
  rcases hrb : rebaseRun env r f b cfg with ⟨tr, rr⟩
  rw [hrb] at S6
  rcases rr with fE | u
  · simpa using S6
  · rcases h9 : env.createReaction "rocket" with f9 | d9 <;>
      simp [createIssueCommentReaction, h9, S6]

theorem rebaseAndNotify_conflict (env : Env) (r f b : String) (cfg : List String)
    (m sh : String)
    (h : (rebaseAndNotify env r f b cfg).2 = Except.error (Err.codeConflict m sh)) :
    env.rebaseResult = Except.error (JsVal.error m) ∧ strIncludes m "CONFLICT" = true ∧
    sh = env.rebaseHeadSha := by
  obtain ⟨S1, S2, S3, S4, S5, S6, S7⟩ := rebaseRun_shape env r f b cfg
  unfold rebaseAndNotify at h
  rcases hrb : rebaseRun env r f b cfg with ⟨tr, rr⟩
  rw [hrb] at S7 h
  rcases rr with fE | u
  · exact S7 m sh (by simpa using h)
  · rcases h9 : env.createReaction "rocket" with f9 | d9 <;>
      simp [createIssueCommentReaction, h9] at h

/-! ## Shape of the orchestrator try block -/

/-- Structural facts about the `try` block, for every environment: it posts
no pull-request comments; a `CodeConflict` escaping it originates from a
rebase failure carrying the conflict indicator, with the SHA from
`REBASE_HEAD`; once the `eyes` reaction is created its id is retained on
every exit; temporary directories are created only at the workspace path
and are always paired with a removal; and every git-client initialization
uses the configuration derived from the computed signing policy. -/
theorem mainFlow_shape (env : Env) :
    commentPosts (mainFlow env).1 = [] ∧
    (∀ m sh, (mainFlow env).2.2 = Except.error (Err.codeConflict m sh) →
      env.rebaseResult = Except.error (JsVal.error m) ∧ strIncludes m "CONFLICT" = true ∧
      sh = env.rebaseHeadSha) ∧
    (∀ d, env.createReaction "eyes" = Except.ok d → (mainFlow env).2.1 = some d.id) ∧
    (∀ p, Effect.fsMkdtemp p ∈ (mainFlow env).1 →
      p = workspacePath env ∧ Effect.fsRm p ∈ (mainFlow env).1) ∧
    (∀ cfg, cfg ∈ gitInitConfigs (mainFlow env).1 →
      cfg = buildGitConfig env (verifiedPolicy env)) := by
  unfold mainFlow
  rcases h1 : env.createReaction "eyes" with f1 | d1
  · simp [createIssueCommentReaction, h1]
  · simp only [createIssueCommentReaction, h1]
    rcases h2 : env.pullGet with f2 | pr
    · simp [h1]
    · rcases h3 : env.compareResult with f3 | n
      · simp [h1]
      · by_cases hb : n = 0
        · rcases h4 : env.createReaction "confused" with f4 | d4 <;>
            simp [createIssueCommentReaction, h4, hb, h1]
        · simp only [hb, if_false, getInstallationToken]
          rcases h5 : env.authResult with f5 | a
          · simp [h1]
          · rcases a with tok | r
            · simp only [areCommitsVerified]
              rcases h7 : env.listCommits with f7 | cs
              · refine ⟨by simp, ?_, by simp [h1], ?_, ?_⟩
                · intro m sh h
                  exact rebaseAndNotify_conflict env _ _ _ _ m sh (by simpa using h)
                · intro p hp
                  simp at hp
                  simp [hp]
                · intro cfg hcfg
                  simp [verifiedPolicy, h7] at hcfg ⊢
                  simp [hcfg]
              · refine ⟨by simp, ?_, by simp [h1], ?_, ?_⟩
                · intro m sh h
                  exact rebaseAndNotify_conflict env _ _ _ _ m sh (by simpa using h)
                · intro p hp
                  simp at hp
                  simp [hp]
                · intro cfg hcfg
                  simp [verifiedPolicy, h7] at hcfg ⊢
                  simp [hcfg]
            · rcases h4 : env.createReaction "confused" with f4 | d4 <;>
                simp [createIssueCommentReaction, h4, h1]

/-! ## Shape of the catch block -/

/-- Structural facts about the `catch` block: a `CodeConflict` posts
exactly the explanatory comment for its SHA; every other error kind posts
no comment, posts the `confused` marker, and logs an error line; the block
never creates temporary directories and never sets up a git client. -/
theorem onRebaseError_shape (env : Env) (e : Err) :
    (∀ m sh, e = Err.codeConflict m sh →
      commentPosts (onRebaseError env e).1 = [conflictCommentBody sh]) ∧
    ((∀ m sh, e ≠ Err.codeConflict m sh) →
      commentPosts (onRebaseError env e).1 = [] ∧
      "confused" ∈ reactionCreates (onRebaseError env e).1 ∧
      ∃ lm, Effect.log .error lm ∈ (onRebaseError env e).1) ∧
    (∀ p, Effect.fsMkdtemp p ∉ (onRebaseError env e).1) ∧
    gitInitConfigs (onRebaseError env e).1 = [] := by
  unfold onRebaseError
  rcases e with ⟨m, sh⟩ | m | ⟨s, d, msg⟩ | m | r
  · rcases hcc : env.createCommentResult with fC | uC
    · simp [hcc]
    · rcases h4 : env.createReaction "confused" with f4 | d4 <;>
        simp [hcc, createIssueCommentReaction, h4]
  all_goals
    rcases h4 : env.createReaction "confused" with f4 | d4 <;>
      simp [createIssueCommentReaction, h4, errToString]

/-! ## C2: cleanup invariant -/

/-- C2: once the rebase request is acknowledged (the `eyes` reaction was
created), every outcome of the run — success or any failure — deletes that
reaction in the `finally` block, and every temporary workspace directory
created during the run is also removed. -/
theorem handler_cleanup (env : Env) (d : ReactionData)
    (hguard : strStartsWith env.commentBody "/rebase" = true)
    (hpr : env.isPullRequest = true)
    (heyes : env.createReaction "eyes" = Except.ok d) :
    Effect.apiDeleteReaction env.commentId d.id ∈ handlerTrace env ∧
    (∀ p, Effect.fsMkdtemp p ∈ handlerTrace env → Effect.fsRm p ∈ handlerTrace env) := by
  unfold handlerTrace handlerRun
  simp only [hguard, hpr, Bool.not_true, Bool.or_self, Bool.false_eq_true, if_false]
  rcases hm : mainFlow env with ⟨t, eyes, r⟩
  obtain ⟨M1, M2, M3, M4, M5⟩ := mainFlow_shape env
  rw [hm] at M3 M4
  have he : eyes = some d.id := M3 d heyes
  have hM4 : ∀ p, Effect.fsMkdtemp p ∈ t → Effect.fsRm p ∈ t := fun p hp => (M4 p hp).2
  rcases r with e | u
  · obtain ⟨O1, O2, O3, O4⟩ := onRebaseError_shape env e
    constructor
    · simp [he]
    · intro p hp
      rw [List.mem_append, List.mem_append, List.mem_append] at hp
      rcases hp with ((hp | hp) | hp) | hp
      · simp at hp
      · exact List.mem_append.mpr (Or.inl (List.mem_append.mpr (Or.inl
          (List.mem_append.mpr (Or.inr (hM4 p hp))))))
      · exact absurd hp (O3 p)
      · rw [he] at hp
        simp at hp
  · constructor
    · simp [he]
    · intro p hp
      rw [List.mem_append, List.mem_append, List.mem_append] at hp
      rcases hp with ((hp | hp) | hp) | hp
      · simp at hp
      · exact List.mem_append.mpr (Or.inl (List.mem_append.mpr (Or.inl
          (List.mem_append.mpr (Or.inr (hM4 p hp))))))
      · simp at hp
      · rw [he] at hp
        simp at hp

/-- Witness for C2: on the all-success environment, the acknowledged marker
is deleted and the created workspace is removed. -/
theorem handler_cleanup_witness :
    strStartsWith envHappy.commentBody "/rebase" = true ∧
    envHappy.createReaction "eyes" = Except.ok ⟨201, 5⟩ ∧
    Effect.fsMkdtemp "/tmp/basejump-1000-abc123" ∈ handlerTrace envHappy ∧
    Effect.apiDeleteReaction 10 5 ∈ handlerTrace envHappy ∧
    Effect.fsRm "/tmp/basejump-1000-abc123" ∈ handlerTrace envHappy := by
  refine ⟨by decide, rfl, by decide, ?_, ?_⟩
  · exact (handler_cleanup envHappy ⟨201, 5⟩ (by decide) rfl rfl).1
  · exact (handler_cleanup envHappy ⟨201, 5⟩ (by decide) rfl rfl).2
      "/tmp/basejump-1000-abc123" (by decide)

/-! ## C10: guard rejection has no side effects -/

/-- C10: when the comment body does not start with `/rebase`, or the issue
is not a pull request, the handler returns immediately with an empty effect
trace — no reaction, no API call, no git or filesystem operation. -/
theorem handler_guard_noop (env : Env)
    (h : strStartsWith env.commentBody "/rebase" = false ∨ env.isPullRequest = false) :
    handlerTrace env = [] ∧ (handlerRun env).2 = Except.ok () := by
  unfold handlerTrace handlerRun
  rcases h with h | h <;> simp [h]

/-- Witness for C10: a comment on a plain issue produces no effects. -/
theorem handler_guard_noop_witness :
    envNotPr.isPullRequest = false ∧ handlerTrace envNotPr = [] := by
  exact ⟨rfl, (handler_guard_noop envNotPr (Or.inr rfl)).1⟩

/-! ## C3: push-failure classification -/

/-- C3: the force-push step raises `RemoteChanged` exactly when the push
fails with an `Error` whose message contains the local stale-lease rejection
`[rejected] (stale info)` or the remote ref-mismatch report
`is at <40-hex-sha> but expected <40-hex-sha>`; every other push failure is
propagated unchanged as a generic failure. -/
theorem forcePushWithLease_remoteChanged_iff (env : Env) (branch : String) :
    (∀ u, env.pushResult = Except.ok u →
      forcePushWithLease env branch =
        ([Effect.gitPush "origin" branch ["--force-with-lease"]], Except.ok ())) ∧
    (∀ msg, env.pushResult = Except.error (JsVal.error msg) →
      (((forcePushWithLease env branch).2 = Except.error (Err.remoteChanged msg)) ↔
        (ContainsSub msg "[rejected] (stale info)" ∨ RefMismatchSpec msg)) ∧
      (¬(ContainsSub msg "[rejected] (stale info)" ∨ RefMismatchSpec msg) →
        (forcePushWithLease env branch).2 = Except.error (Err.jsError msg))) ∧
    (∀ r, env.pushResult = Except.error (JsVal.nonError r) →
      (forcePushWithLease env branch).2 = Except.error (Err.nonErrorValue r)) := by
  refine ⟨?_, ?_, ?_⟩
  · intro u hu
    simp [forcePushWithLease, hu]
  · intro msg hmsg
    have hcond : (strIncludes msg "[rejected] (stale info)" || refMismatch msg) = true ↔
        (ContainsSub msg "[rejected] (stale info)" ∨ RefMismatchSpec msg) := by
      rw [Bool.or_eq_true, strIncludes_iff, refMismatch_iff]
    by_cases hc : (strIncludes msg "[rejected] (stale info)" || refMismatch msg) = true
    · refine ⟨⟨fun _ => hcond.mp hc, fun _ => ?_⟩, fun hn => absurd (hcond.mp hc) hn⟩
      simp [forcePushWithLease, hmsg, hc]
    · have hc2 : (strIncludes msg "[rejected] (stale info)" || refMismatch msg) = false := by
        simpa using hc
      refine ⟨⟨fun hres => ?_, fun hr => absurd (hcond.mpr hr) hc⟩, fun _ => ?_⟩
      · exfalso
        simp [forcePushWithLease, hmsg, hc2] at hres
      · simp [forcePushWithLease, hmsg, hc2]
  · intro r hr
    simp [forcePushWithLease, hr]

/-- Witness for C3: a concrete stale-lease rejection is classified as
`RemoteChanged`. -/
theorem forcePushWithLease_remoteChanged_iff_witness :
    envRemoteChanged.pushResult =
      Except.error (JsVal.error
        "To github.com:acme/widgets.git ! [rejected] (stale info) feat -> feat") ∧
    (forcePushWithLease envRemoteChanged "feat").2 =
      Except.error (Err.remoteChanged
        "To github.com:acme/widgets.git ! [rejected] (stale info) feat -> feat") := by
  refine ⟨rfl, ?_⟩
  exact ((forcePushWithLease_remoteChanged_iff envRemoteChanged "feat").2.1 _ rfl).1.mpr
    (Or.inl (strIncludes_iff.mp (by decide)))

/-! ## C6: the verification classifier fails closed and never throws -/

/-- C6: for every outcome of the commit-listing call, `areCommitsVerified`
returns a Boolean rather than propagating an exception, and on any listing
failure the returned policy is `false`. -/
theorem areCommitsVerified_fail_closed (env : Env) :
    (∃ b, (areCommitsVerified env).2 = Except.ok b) ∧
    (∀ f, env.listCommits = Except.error f →
      (areCommitsVerified env).2 = Except.ok false) := by
  constructor
  · rcases h : env.listCommits with f | cs
    · exact ⟨false, by simp [areCommitsVerified, h]⟩
    · exact ⟨(cs.filter (fun c => !commitIsVerifiedValid c)).length == 0,
        by simp [areCommitsVerified, h]⟩
  · intro f hf
    simp [areCommitsVerified, hf]

/-- Environment whose commit-listing call fails with an HTTP 500. -/
def envListFail : Env :=
  { envHappy with listCommits := .error (.http 500 "\x7b\"message\":\"boom\"\x7d" "boom") }

/-- Witness for C6: with a failing listing call the classifier returns
`false` without throwing. -/
theorem areCommitsVerified_fail_closed_witness :
    envListFail.listCommits =
      Except.error (ApiFail.http 500 "\x7b\"message\":\"boom\"\x7d" "boom") ∧
    (areCommitsVerified envListFail).2 = Except.ok false := by
  exact ⟨rfl, (areCommitsVerified_fail_closed envListFail).2 _ rfl⟩

/-! ## C8: no push when the executor reports the branch already up to date -/

/-- C8: when the native rebase succeeds with a status message saying the
current branch is already up to date, the executor issues no push of any
kind and completes successfully. -/
theorem rebaseRun_skips_push_when_up_to_date (env : Env)
    (remoteUri featBranch baseBranch : String) (gitConfig : List String) (msg : String)
    (hclone : env.cloneResult = Except.ok ())
    (hco : env.checkoutResult = Except.ok ())
    (hreb : env.rebaseResult = Except.ok msg)
    (hup : upToDateMatch msg = true) :
    (rebaseRun env remoteUri featBranch baseBranch gitConfig).2 = Except.ok () ∧
    ∀ remote branch opts,
      Effect.gitPush remote branch opts ∉
        (rebaseRun env remoteUri featBranch baseBranch gitConfig).1 := by
  constructor
  · simp [rebaseRun, rebaseRunBody, doRebase, hclone, hco, hreb, hup]
  · intro remote branch opts
    simp [rebaseRun, rebaseRunBody, doRebase, hclone, hco, hreb, hup]

/-- Environment whose rebase reports the branch already up to date. -/
def envUpToDate : Env :=
  { envHappy with rebaseResult := .ok "Current branch feat is up to date." }

/-- Witness for C8 at a concrete up-to-date run. -/
theorem rebaseRun_skips_push_when_up_to_date_witness :
    envUpToDate.cloneResult = Except.ok () ∧
    envUpToDate.rebaseResult = Except.ok "Current branch feat is up to date." ∧
    upToDateMatch "Current branch feat is up to date." = true ∧
    (rebaseRun envUpToDate "u" "feat" "main" []).2 = Except.ok () ∧
    Effect.gitPush "origin" "feat" ["--force-with-lease"] ∉
      (rebaseRun envUpToDate "u" "feat" "main" []).1 := by
  refine ⟨rfl, rfl, by decide, ?_, ?_⟩
  · exact (rebaseRun_skips_push_when_up_to_date envUpToDate "u" "feat" "main" [] _
      rfl rfl rfl (by decide)).1
  · exact (rebaseRun_skips_push_when_up_to_date envUpToDate "u" "feat" "main" [] _
      rfl rfl rfl (by decide)).2 "origin" "feat" ["--force-with-lease"]

/-! ## C4: conflict attribution -/

theorem firstConflicting_eq_get (cs : List ReplayCommit) (n : Nat) (hn : n < cs.length)
    (hbefore : (cs.take n).all (fun c => !c.conflicts) = true)
    (hconf : (cs.get ⟨n, hn⟩).conflicts = true) :
    firstConflicting cs = some (cs.get ⟨n, hn⟩) := by
  induction cs generalizing n with
  | nil => exact absurd hn (by simp)
  | cons c cs ih =>
    cases n with
    | zero =>
      simp only [List.get] at hconf
      simp [firstConflicting, hconf]
    | succ m =>
      have hc : c.conflicts = false := by
        have := List.all_eq_true.mp hbefore c (by simp [List.take_succ_cons])
        simpa using this
      have hrest : (cs.take m).all (fun x => !x.conflicts) = true := by
        rw [List.all_eq_true]
        intro x hx
        exact List.all_eq_true.mp hbefore x (by simp [List.take_succ_cons, hx])
      simp only [firstConflicting, hc, Bool.false_eq_true, if_false]
      exact ih m (Nat.lt_of_succ_lt_succ hn) hrest hconf

/-- C4: when the native rebase stops at its first conflicting commit — the
commit at any position `n` — the executor raises `CodeConflict` carrying
exactly the SHA that the rebase-in-progress head reference resolves to,
i.e. that commit; and a rebase failure without the conflict indicator is
re-raised unchanged. -/
theorem doRebase_conflict_attribution (env : Env) (cs : List ReplayCommit)
    (base okMessage : String) (n : Nat) (hn : n < cs.length)
    (hbefore : (cs.take n).all (fun c => !c.conflicts) = true)
    (hconf : (cs.get ⟨n, hn⟩).conflicts = true)
    (hres : env.rebaseResult = simRebaseResult cs okMessage)
    (hhead : env.rebaseHeadSha = simRebaseHead cs) :
    doRebase env base =
      ([Effect.gitRebase [base], Effect.gitRevparse "REBASE_HEAD"],
        Except.error (Err.codeConflict conflictDiagnostic (cs.get ⟨n, hn⟩).sha)) ∧
    (∀ m, strIncludes m "CONFLICT" = false →
      doRebase { env with rebaseResult := Except.error (JsVal.error m) } base =
        ([Effect.gitRebase [base]], Except.error (Err.jsError m))) := by
  have hfc := firstConflicting_eq_get cs n hn hbefore hconf
  constructor
  · have hres2 : env.rebaseResult = Except.error (JsVal.error conflictDiagnostic) := by
      rw [hres, simRebaseResult, hfc]
    have hhead2 : env.rebaseHeadSha = (cs.get ⟨n, hn⟩).sha := by
      rw [hhead, simRebaseHead, hfc]
    simp [doRebase, hres2, hhead2, show strIncludes conflictDiagnostic "CONFLICT" = true by decide]
  · intro m hm
    simp [doRebase, hm]

/-- Modelled rebase input for the C4 witness: the second of two commits
conflicts. -/
def replayTwo : List ReplayCommit :=
  [⟨"1111111111111111111111111111111111111111", false⟩,
   ⟨"2222222222222222222222222222222222222222", true⟩]

/-- Environment driven by the modelled rebase over `replayTwo`. -/
def envReplayConflict : Env :=
  { envHappy with
    rebaseResult := simRebaseResult replayTwo "ok"
    rebaseHeadSha := simRebaseHead replayTwo }

/-- Witness for C4: with the second commit conflicting, the raised error
carries exactly the SHA of that commit. -/
theorem doRebase_conflict_attribution_witness :
    (replayTwo.take 1).all (fun c => !c.conflicts) = true ∧
    doRebase envReplayConflict "main" =
      ([Effect.gitRebase ["main"], Effect.gitRevparse "REBASE_HEAD"],
        Except.error (Err.codeConflict conflictDiagnostic
          "2222222222222222222222222222222222222222")) := by
  refine ⟨by decide, ?_⟩
  exact (doRebase_conflict_attribution envReplayConflict replayTwo "main" "ok" 1
    (by decide) (by decide) (by decide) rfl rfl).1

/-! ## C7: only conflicts are explained to the user -/

theorem conflictCommentBody_contains (sha : String) :
    ContainsSub (conflictCommentBody sha) (sha.take 7) ∧
    ContainsSub (conflictCommentBody sha) "Please resolve the conflict and push again." := by
  constructor
  · refine ⟨"Failed to rebase: Conflict detected when applying commit ".toList,
      ".".toList ++ "\n\n".toList ++
        "Please resolve the conflict and push again.".toList, ?_⟩
    simp [conflictCommentBody, String.toList, String.data_append, List.append_assoc]
  · refine ⟨"Failed to rebase: Conflict detected when applying commit ".toList ++
      (sha.take 7).toList ++ ".".toList ++ "\n\n".toList, [], ?_⟩
    simp [conflictCommentBody, String.toList, String.data_append, List.append_assoc]

/-- Exact comment output of a guarded handler run: the conflict explanation
when the try block raised a `CodeConflict`, nothing otherwise. -/
theorem commentPosts_handlerTrace (env : Env)
    (hg : (!(strStartsWith env.commentBody "/rebase") || !env.isPullRequest) = false) :
    commentPosts (handlerTrace env) =
      (match (mainFlow env).2.2 with
       | Except.error (Err.codeConflict _ sh) => [conflictCommentBody sh]
       | _ => []) := by
  unfold handlerTrace handlerRun
  rcases hm : mainFlow env with ⟨t, eyes, r⟩
  obtain ⟨M1, M2, M3, M4, M5⟩ := mainFlow_shape env
  rw [hm] at M1
  have hM1 : commentPosts t = [] := M1
  rcases r with e | u
  · obtain ⟨O1, O2, O3, O4⟩ := onRebaseError_shape env e
    rcases e with ⟨m, sh⟩ | m | ⟨s, dd, msg⟩ | m | rr
    · have hcp := O1 m sh rfl
      rcases eyes with _ | id <;> simp [hg, hcp, hM1]
    all_goals
      have hcp := (O2 (by simp)).1
      rcases eyes with _ | id <;> simp [hg, hcp, hM1]
  · rcases eyes with _ | id <;> simp [hg, hM1]

set_option maxHeartbeats 1000000 in
/-- C7: among all failure kinds, only a code conflict posts a pull-request
comment — any posted comment body is the conflict explanation for the
`REBASE_HEAD` SHA, containing its 7-character short form and the
resolve-manually instruction, and implies the rebase failed with the
conflict indicator; every non-conflict error kind posts no comment, posts
the `confused` failure marker, and logs an error line. -/
theorem handler_comment_policy (env : Env) :
    (∀ b, b ∈ commentPosts (handlerTrace env) →
      (∃ m, env.rebaseResult = Except.error (JsVal.error m) ∧
        strIncludes m "CONFLICT" = true) ∧
      b = conflictCommentBody env.rebaseHeadSha ∧
      ContainsSub b (env.rebaseHeadSha.take 7) ∧
      ContainsSub b "Please resolve the conflict and push again.") ∧
    (∀ e, (∀ m sh, e ≠ Err.codeConflict m sh) →
      commentPosts (onRebaseError env e).1 = [] ∧
      "confused" ∈ reactionCreates (onRebaseError env e).1 ∧
      ∃ lm, Effect.log .error lm ∈ (onRebaseError env e).1) := by
  constructor
  · intro b hb
    by_cases hgg : (!(strStartsWith env.commentBody "/rebase") || !env.isPullRequest) = true
    · unfold handlerTrace handlerRun at hb
      simp [hgg] at hb
    · have hg : (!(strStartsWith env.commentBody "/rebase") || !env.isPullRequest) = false := by
        simpa using hgg
      rw [commentPosts_handlerTrace env hg] at hb
      obtain ⟨M1, M2, M3, M4, M5⟩ := mainFlow_shape env
      rcases hr : (mainFlow env).2.2 with e | u
      · rcases e with ⟨m, sh⟩ | m | ⟨s, dd, msg⟩ | m | rr <;> rw [hr] at hb <;> simp at hb
        have hM := M2 m sh hr
        refine ⟨⟨m, hM.1, hM.2.1⟩, by rw [hb, hM.2.2], ?_, ?_⟩
        · rw [hb, hM.2.2]
          exact (conflictCommentBody_contains _).1
        · rw [hb, hM.2.2]
          exact (conflictCommentBody_contains _).2
      · rw [hr] at hb
        simp at hb
  · intro e hne
    exact (onRebaseError_shape env e).2.1 hne

/-- Witness for C7: a conflicting run posts exactly the explanatory
comment, and a remote-changed error posts none. -/
theorem handler_comment_policy_witness :
    conflictCommentBody "deadbeefdeadbeefdeadbeefdeadbeefdeadbeef" ∈
      commentPosts (handlerTrace envConflict) ∧
    (∃ m, envConflict.rebaseResult = Except.error (JsVal.error m) ∧
      strIncludes m "CONFLICT" = true) ∧
    commentPosts (onRebaseError envConflict (Err.remoteChanged "x")).1 = [] ∧
    "confused" ∈ reactionCreates (onRebaseError envConflict (Err.remoteChanged "x")).1 := by
  have hmem : conflictCommentBody "deadbeefdeadbeefdeadbeefdeadbeefdeadbeef" ∈
      commentPosts (handlerTrace envConflict) := by decide
  have h2 := (handler_comment_policy envConflict).2 (Err.remoteChanged "x")
    (by intro m sh h; exact Err.noConfusion h)
  exact ⟨hmem, ((handler_comment_policy envConflict).1 _ hmem).1, h2.1, h2.2.1⟩

/-! ## C5: the not-behind path performs no work -/

@[simp] theorem notTouches_alreadyReactedWarn (env : Env) (c : String) (s : Nat) :
    ∀ x ∈ alreadyReactedWarn env c s, touchesWorkTree x = false := by
  by_cases h : s = 200 <;> simp [alreadyReactedWarn, h]

/-- C5: when the branch comparison reports the head 0 commits behind base,
the run creates exactly the `received` (eyes) marker followed by the no-op
(`confused`) marker, posts no comment, and performs no workspace or git
operation of any kind. -/
theorem handler_noop_path (env : Env) (d1 d2 : ReactionData) (pr : PullData)
    (hguard : strStartsWith env.commentBody "/rebase" = true)
    (hpr : env.isPullRequest = true)
    (heyes : env.createReaction "eyes" = Except.ok d1)
    (hconf : env.createReaction "confused" = Except.ok d2)
    (hpull : env.pullGet = Except.ok pr)
    (hbehind : env.compareResult = Except.ok 0) :
    reactionCreates (handlerTrace env) = ["eyes", "confused"] ∧
    commentPosts (handlerTrace env) = [] ∧
    (handlerTrace env).all (fun e => !touchesWorkTree e) = true := by
  unfold handlerTrace handlerRun mainFlow
  simp [hguard, hpr, createIssueCommentReaction, heyes, hconf, hpull, hbehind]
  exact ⟨fun x hx => notTouches_alreadyReactedWarn env "eyes" d1.status x hx,
         fun x hx => notTouches_alreadyReactedWarn env "confused" d2.status x hx⟩

/-- Witness for C5 on the concrete not-behind environment. -/
theorem handler_noop_path_witness :
    envNoOp.compareResult = Except.ok 0 ∧
    reactionCreates (handlerTrace envNoOp) = ["eyes", "confused"] ∧
    commentPosts (handlerTrace envNoOp) = [] := by
  have h := handler_noop_path envNoOp ⟨201, 5⟩ ⟨201, 6⟩ ⟨"main", "feat"⟩
    (by decide) rfl rfl rfl rfl rfl
  exact ⟨rfl, h.1, h.2.1⟩

/-! ## C1: signing policy and uniform configuration flag -/

theorem filter_not_length_eq_all (cs : List Commit) :
    ((cs.filter (fun c => !commitIsVerifiedValid c)).length == 0) =
      cs.all commitIsVerifiedValid := by
  induction cs with
  | nil => rfl
  | cons c t ih =>
    by_cases h : commitIsVerifiedValid c = true <;> simp [List.filter_cons, h, ih]

/-- Counterexample for C1 as stated: on a pull request whose commit listing
is empty, the code computes policy `true`, while the claimed policy — which
requires a non-empty record set — is `false`. -/
theorem signingPolicy_counterexample :
    envEmptyCommits.listCommits = Except.ok [] ∧
    (areCommitsVerified envEmptyCommits).2 = Except.ok true ∧
    claimSigningPolicy [] = false := ⟨rfl, rfl, rfl⟩

/-- C1 (amended): the computed signing policy is true iff every listed
commit is verified with reason `valid` — vacuously true for an empty
listing, with no non-emptiness requirement; the assembled git configuration
carries the fixed identity plus exactly one batch-wide `commit.gpgsign`
flag, enabled (with the signing key) only when the policy is true and a
non-empty `KEY_ID` is configured, disabled otherwise; and every git-client
initialization of a run uses exactly the configuration derived from the
computed policy. -/
theorem signingPolicy_amended (env : Env) :
    (∀ cs, env.listCommits = Except.ok cs →
      (areCommitsVerified env).2 = Except.ok (cs.all commitIsVerifiedValid)) ∧
    (∀ b k, env.keyId = some k → ¬(k = "") →
      buildGitConfig env b = gitIdentityConfig env ++
        (if b then ["commit.gpgsign=true", "user.signingkey=" ++ k]
         else ["commit.gpgsign=false"])) ∧
    (∀ b, env.keyId = none ∨ env.keyId = some "" →
      buildGitConfig env b = gitIdentityConfig env ++ ["commit.gpgsign=false"]) ∧
    (∀ cfg, cfg ∈ gitInitConfigs (mainFlow env).1 →
      cfg = buildGitConfig env (verifiedPolicy env)) := by
  refine ⟨?_, ?_, ?_, (mainFlow_shape env).2.2.2.2⟩
  · intro cs hcs
    simp [areCommitsVerified, hcs, filter_not_length_eq_all]
  · intro b k hk hne
    cases b <;> simp [buildGitConfig, hk, hne]
  · intro b hk
    rcases hk with hk | hk <;> cases b <;> simp [buildGitConfig, hk]

/-- Witness for C1 (amended) on the all-success environment with one valid
commit and a configured key. -/
theorem signingPolicy_amended_witness :
    envHappy.keyId = some "ABCD1234" ∧
    (areCommitsVerified envHappy).2 = Except.ok true ∧
    buildGitConfig envHappy true = gitIdentityConfig envHappy ++
      ["commit.gpgsign=true", "user.signingkey=ABCD1234"] ∧
    buildGitConfig envHappy false = gitIdentityConfig envHappy ++
      ["commit.gpgsign=false"] := by
  refine ⟨rfl, ?_, ?_, ?_⟩
  · have h := (signingPolicy_amended envHappy).1
      [⟨"aaaa111", "null", "null", some ⟨true, "valid"⟩⟩] rfl
    simpa using h
  · have h := (signingPolicy_amended envHappy).2.1 true "ABCD1234" rfl (by decide)
    simpa using h
  · have h := (signingPolicy_amended envHappy).2.1 false "ABCD1234" rfl (by decide)
    simpa using h

/-! ## C9: workspace path derivation -/

/-- Counterexample for C9 as stated: two requests with entirely different
identities (owner, repository, pull-request number) but the same timestamp
and the same mkdtemp draw create their workspaces at the identical path —
the path is not derived from the request identity. -/
theorem workspace_identity_counterexample :
    Effect.fsMkdtemp "/tmp/basejump-1000-abc123" ∈ handlerTrace envIdentA ∧
    Effect.fsMkdtemp "/tmp/basejump-1000-abc123" ∈ handlerTrace envIdentB ∧
    envIdentA.owner ≠ envIdentB.owner ∧
    envIdentA.repo ≠ envIdentB.repo ∧
    envIdentA.issueNumber ≠ envIdentB.issueNumber := by
  refine ⟨by decide, by decide, by decide, by decide, by decide⟩

/-- C9 (amended): every temporary directory created by a run lies at the
workspace path formed from the OS temporary directory, the wall-clock
timestamp template `basejump-<now>-`, and the fresh suffix appended by
`mkdtemp` — not from the request identity; attempts that draw distinct
mkdtemp suffixes at the same timestamp get distinct paths. -/
theorem workspace_uniqueness_amended (env : Env) :
    (∀ p, Effect.fsMkdtemp p ∈ handlerTrace env → p = workspacePath env) ∧
    workspacePath env =
      env.tmpdir ++ "/basejump-" ++ toString env.now ++ "-" ++ env.tmpSuffix ∧
    (∀ env2, env2.tmpdir = env.tmpdir → env2.now = env.now →
      env2.tmpSuffix ≠ env.tmpSuffix → workspacePath env2 ≠ workspacePath env) := by
  refine ⟨?_, rfl, ?_⟩
  · intro p hp
    unfold handlerTrace handlerRun at hp
    by_cases hg : (!(strStartsWith env.commentBody "/rebase") || !env.isPullRequest) = true
    · simp [hg] at hp
    · have hg2 : (!(strStartsWith env.commentBody "/rebase") || !env.isPullRequest) = false := by
        simpa using hg
      rcases hm : mainFlow env with ⟨t, eyes, r⟩
      rw [hm] at hp
      obtain ⟨M1, M2, M3, M4, M5⟩ := mainFlow_shape env
      rw [hm] at M4
      rcases r with e | u
      · obtain ⟨O1, O2, O3, O4⟩ := onRebaseError_shape env e
        rcases eyes with _ | id <;> simp [hg2] at hp
        all_goals
          rcases hp with hp | hp
          · exact (M4 p hp).1
          · exact absurd hp (O3 p)
      · rcases eyes with _ | id <;> simp [hg2] at hp
        all_goals exact (M4 p hp).1
  · intro env2 ht hn hs heq
    apply hs
    unfold workspacePath at heq
    rw [ht, hn] at heq
    have hd := congrArg String.data heq
    simp only [String.data_append, List.append_assoc] at hd
    have h1 := List.append_cancel_left hd
    have h2 := List.append_cancel_left h1
    have h3 := List.append_cancel_left h2
    have h4 := List.append_cancel_left h3
    exact String.ext h4

/-- Witness for C9 (amended): distinct suffixes yield distinct paths. -/
theorem workspace_uniqueness_amended_witness :
    Effect.fsMkdtemp "/tmp/basejump-1000-abc123" ∈ handlerTrace envHappy ∧
    workspacePath { envHappy with tmpSuffix := "zzz999" } ≠ workspacePath envHappy := by
  constructor
  · exact (workspace_uniqueness_amended envHappy).1 "/tmp/basejump-1000-abc123" (by decide) ▸
      (by decide)
  · exact (workspace_uniqueness_amended envHappy).2.2
      { envHappy with tmpSuffix := "zzz999" } rfl rfl (by decide)

end Basejump
